import Mathlib

/-!
Shallow embedding of the d-zero event-sourcing core
(`src/eventSource/EventSource.ts`, `src/eventSource/HostEventSource.ts`,
`mergeSorted`, `EventMessage`), with theorems checking the repository's
specification claims against it.

Conventions of the embedding:
* JS arrays become `List`, mutation becomes explicit state passing on a
  record type, and every public engine method is a pure function
  `EventSource P St → EventSource P St` (the reducer `applyEvent` is
  passed explicitly, since in the source it is an injected closure).
* `number` timestamps become `Int`; string ids stay `String`, with
  `localeCompare` modelled by its sign against Lean's lexicographic
  string order.
* Calls to `notify()` are instrumented by a `notifications` counter so
  that "notify exactly once / not at all" is checkable.
* A throwing reducer is modelled separately by `Except`-valued
  `applyEvent`; the `*Throwing` operations record the engine state left
  behind at the point the exception propagates, mirroring the mutation
  order of the source.
-/

namespace DZero

/-- `BaseEvent<Payload>`: `{ id; timestamp; source: {clientId}; payload }`
(the optional opaque `context` field carries no behaviour and is omitted).
`source` holds the `clientId` string. -/
structure BaseEvent (P : Type) where
  id : String
  timestamp : Int
  source : String
  payload : P
deriving Repr, DecidableEq

/-- Lexicographic comparison of two character lists, as a sign. -/
def lexCompareChars : List Char → List Char → Int
  | [], [] => 0
  | [], _ :: _ => -1
  | _ :: _, [] => 1
  | a :: l, b :: r => if a < b then -1 else if b < a then 1 else lexCompareChars l r

/-- Sign model of JavaScript `a.localeCompare(b)` in the default locale:
negative when `a` sorts before `b`, `0` on equality, positive otherwise
(lexicographic over the characters, per the spec's "id ascending
lexicographic"). -/
def localeCompare (a b : String) : Int :=
  lexCompareChars a.data b.data

/-- The comparator passed to `mergeSorted` by `insertEvents`:
`a.timestamp !== b.timestamp ? a.timestamp - b.timestamp : a.id.localeCompare(b.id)`. -/
def eventCompare {P : Type} (a b : BaseEvent P) : Int :=
  if a.timestamp ≠ b.timestamp then a.timestamp - b.timestamp
  else localeCompare a.id b.id

/-- Strict order "`a` comes before `b`" induced by the comparator. -/
def eventLt {P : Type} (a b : BaseEvent P) : Prop := eventCompare a b < 0

instance {P : Type} : DecidableRel (eventLt (P := P)) := fun a b => by
  unfold eventLt; infer_instance

/-- Inner loop of `mergeSorted`, structurally recursive on the right
list; `ihl` is the merge continuation for the left tail `l`. -/
def mergeSortedGo {T : Type} (cmp : T → T → Int) (ihl : List T → List T)
    (a : T) (l : List T) : List T → List T
  | [] => a :: l
  | b :: r =>
    if cmp a b ≤ 0 then a :: ihl (b :: r)
    else b :: mergeSortedGo cmp ihl a l r

/-- `mergeSorted(left, right, compare)` from `src/unnamed/part_002`:
take from `left` while `compare(left[i], right[j]) <= 0`, else from
`right`; then append the leftovers. (Written as nested structural
recursion so that it computes; `mergeSorted_cons_cons` below recovers
the loop's defining equation.) -/
def mergeSorted {T : Type} (cmp : T → T → Int) : List T → List T → List T
  | [], right => right
  | a :: l, right => mergeSortedGo cmp (fun r2 => mergeSorted cmp l r2) a l right

/-- The state of an `EventSource<Event, State>` instance: the log
(`events`), the derived `state`, the snapshot list (`(state, eventIndex)`
pairs in push order), the construction parameters, and a counter of
`notify()` calls. -/
structure EventSource (P St : Type) where
  initialState : St
  snapshotInterval : Int
  events : List (BaseEvent P)
  state : St
  snapshots : List (St × Nat)
  notifications : Nat
deriving Repr, DecidableEq

namespace EventSource

variable {P St : Type}

/-- A freshly constructed engine (constructor body after the
`snapshotInterval <= 0` guard). -/
def mk0 (initialState : St) (snapshotInterval : Int) : EventSource P St :=
  { initialState, snapshotInterval, events := [], state := initialState,
    snapshots := [], notifications := 0 }

/-- The constructor including its fail-fast guard:
`if (snapshotInterval <= 0) throw new Error(...)`. -/
def construct (initialState : St) (snapshotInterval : Int) :
    Except String (EventSource P St) :=
  if snapshotInterval ≤ 0 then .error "snapshotInterval must be a positive integer"
  else .ok (mk0 initialState snapshotInterval)

/-- `getState()`. -/
def getState (es : EventSource P St) : St := es.state

/-- `notify()`: every subscriber is called; the embedding counts the pass. -/
def notify (es : EventSource P St) : EventSource P St :=
  { es with notifications := es.notifications + 1 }

/-- `getLatestSnapshot()`: the last pushed snapshot, or
`{state: initialState, eventIndex: 0}` when none exist. -/
def getLatestSnapshot (es : EventSource P St) : St × Nat :=
  es.snapshots.getLast?.getD (es.initialState, 0)

/-- `createSnapshot()` (the returned disposer handle is not modelled). -/
def createSnapshot (es : EventSource P St) : EventSource P St :=
  { es with snapshots := es.snapshots ++ [(es.state, es.events.length)] }

/-- `dispatch(event)`: push, apply, notify, then auto-snapshot when
`events.length - latestSnapshot.eventIndex >= snapshotInterval`. -/
def dispatch (applyEvent : St → BaseEvent P → St) (es : EventSource P St)
    (e : BaseEvent P) : EventSource P St :=
  let es1 := notify { es with events := es.events ++ [e],
                              state := applyEvent es.state e }
  if es1.snapshotInterval ≤
      (es1.events.length : Int) - ((getLatestSnapshot es1).2 : Int) then
    createSnapshot es1
  else es1

/-- `replay(events)`: fold the reducer over `events` into the current
state (the log is untouched), then notify once. -/
def replay (applyEvent : St → BaseEvent P → St) (es : EventSource P St)
    (evs : List (BaseEvent P)) : EventSource P St :=
  notify { es with state := evs.foldl applyEvent es.state }

/-- The loop `while (getLatestSnapshot().eventIndex > k) dropLatestSnapshot()`
(used inline by `removeEvent` and as `dropSnapshotsAfterEventIndex` by
`insertEvents`): pop from the end while the last snapshot's `eventIndex`
exceeds `k`. -/
def dropSnapshotsAfterEventIndex (snaps : List (St × Nat)) (k : Nat) :
    List (St × Nat) :=
  (snaps.reverse.dropWhile (fun s => decide (k < s.2))).reverse

/-- `removeEvent(event)`: find by id (no-op when absent), drop snapshots
past that index, rewind to the newest remaining snapshot, filter the
detached suffix by id, push it back and replay it. -/
def removeEvent (applyEvent : St → BaseEvent P → St) (es : EventSource P St)
    (e : BaseEvent P) : EventSource P St :=
  match es.events.findIdx? (fun x => x.id == e.id) with
  | none => es
  | some index =>
    let snaps := dropSnapshotsAfterEventIndex es.snapshots index
    let snap := snaps.getLast?.getD (es.initialState, 0)
    let toReplay := (es.events.drop snap.2).filter (fun x => x.id != e.id)
    replay applyEvent
      { es with snapshots := snaps, state := snap.1,
                events := es.events.take snap.2 ++ toReplay }
      toReplay

/-- `insertEvents(events)`: empty input is a no-op; otherwise find the
first log index whose timestamp is strictly greater than the first new
event's timestamp (or the end of the log), drop snapshots past it,
rewind to the newest remaining snapshot, merge the detached suffix with
the new events under `eventCompare`, push the merge back and replay it. -/
def insertEvents (applyEvent : St → BaseEvent P → St) (es : EventSource P St)
    (evs : List (BaseEvent P)) : EventSource P St :=
  match evs with
  | [] => es
  | e0 :: _ =>
    let insertIndex :=
      match es.events.findIdx? (fun x => decide (e0.timestamp < x.timestamp)) with
      | none => es.events.length
      | some i => i
    let snaps := dropSnapshotsAfterEventIndex es.snapshots insertIndex
    let snap := snaps.getLast?.getD (es.initialState, 0)
    let newEvents := mergeSorted eventCompare (es.events.drop snap.2) evs
    replay applyEvent
      { es with snapshots := snaps, state := snap.1,
                events := es.events.take snap.2 ++ newEvents }
      newEvents

/-- `rebaseline(state)`: discard log and snapshots, reset both initial
and current state, notify once. -/
def rebaseline (es : EventSource P St) (s : St) : EventSource P St :=
  notify { es with initialState := s, events := [], snapshots := [], state := s }

/-- `dispatch(event)` against a reducer that may throw (`Except`-valued).
Mirrors the mutation order of the source: `events.push(event)` commits
first, then `applyEvent` runs; on a throw the exception propagates with
the event already appended, the state untouched, no notification and no
snapshot. -/
def dispatchThrowing (applyEvent : St → BaseEvent P → Except String St)
    (es : EventSource P St) (e : BaseEvent P) :
    EventSource P St × Option String :=
  let pushed := { es with events := es.events ++ [e] }
  match applyEvent es.state e with
  | .error msg => (pushed, some msg)
  | .ok s' =>
    let es1 := notify { pushed with state := s' }
    if es1.snapshotInterval ≤
        (es1.events.length : Int) - ((getLatestSnapshot es1).2 : Int) then
      (createSnapshot es1, none)
    else (es1, none)

/-- The fold inside `replay` against a throwing reducer: folds until the
first throw, returning the partially advanced state. -/
def foldThrowing (applyEvent : St → BaseEvent P → Except String St) :
    St → List (BaseEvent P) → St × Option String
  | s, [] => (s, none)
  | s, e :: rest =>
    match applyEvent s e with
    | .error msg => (s, some msg)
    | .ok s' => foldThrowing applyEvent s' rest

/-- `replay(events)` against a throwing reducer: `this.state` is updated
event by event, so a mid-list throw leaves the partially folded state
behind and skips the final `notify()`. -/
def replayThrowing (applyEvent : St → BaseEvent P → Except String St)
    (es : EventSource P St) (evs : List (BaseEvent P)) :
    EventSource P St × Option String :=
  match foldThrowing applyEvent es.state evs with
  | (s', some msg) => ({ es with state := s' }, some msg)
  | (s', none) => (notify { es with state := s' }, none)

end EventSource

/-- `EventMessage<E>` from the wire protocol (`src/unnamed/part_003`). -/
inductive EventMessage (E : Type) where
  | event (e : E)
  | rejection (eventId : String)
  | requestHistory (since : Int)
  | eventHistory (events : List E)
deriving Repr, DecidableEq

/-- A client proposal as the host receives it:
`Omit<BaseEvent<EventPayload>, 'timestamp' | 'source'>` (id and payload;
the optional `context` is omitted as in `BaseEvent`). -/
structure ProposedEvent (P : Type) where
  id : String
  payload : P
deriving Repr, DecidableEq

/-- The state of a `HostEventSource<EventPayload, State>`: the inherited
engine, the client registry in insertion order (each client's
`ReconnectingPort` is modelled by its outbox, the list of messages the
host has posted to it), and the `pastEventIds` set (as a duplicate-free
list). The injected `validate` and `filterForClient` functions, the
clock `Date.now()` and the random `generateEventId()` are passed to each
operation explicitly. -/
structure HostEventSource (P St : Type) where
  engine : EventSource P St
  clients : List (String × List (EventMessage (BaseEvent P)))
  pastEventIds : List String
deriving Repr, DecidableEq

namespace HostEventSource

variable {P St : Type}

/-- A fresh host over a fresh engine (the `HostEventSource` constructor
calls `super(initialState, applyEvent)`, so `snapshotInterval` is the
default 100). -/
def mk0 (initialState : St) : HostEventSource P St :=
  { engine := EventSource.mk0 initialState 100, clients := [], pastEventIds := [] }

/-- `validateClientEvent(proposedEvent, clientId)`: reject when the id is
in `pastEventIds` or when the injected `validate` refuses. -/
def validateClientEvent (validate : ProposedEvent P → String → Bool)
    (h : HostEventSource P St) (proposedEvent : ProposedEvent P)
    (clientId : String) : Bool :=
  if h.pastEventIds.contains proposedEvent.id then false
  else if !validate proposedEvent clientId then false
  else true

/-- `port.postMessage(msg)` on the registered client `clientId`'s port:
append to that client's outbox. -/
def postToClient (h : HostEventSource P St) (clientId : String)
    (msg : EventMessage (BaseEvent P)) : HostEventSource P St :=
  { h with clients := h.clients.map (fun c =>
      if c.1 == clientId then (c.1, c.2 ++ [msg]) else c) }

/-- `sendRejectionToClient(eventId, clientId)`: post `{type:'rejection'}`
to the client's port when the client is registered. -/
def sendRejectionToClient (h : HostEventSource P St) (eventId clientId : String) :
    HostEventSource P St :=
  if h.clients.any (fun c => c.1 == clientId) then
    postToClient h clientId (.rejection eventId)
  else h

/-- Modelled from the spec: `receiveFromClient` and the public `dispatch`
call `this.dispatchEvent(...)`, an engine append method of the
`EventSource` base class that is not present in `src/eventSource/EventSource.ts`
(only its callers are). Per spec §4.3, `dispatch(event)` "appends,
applies, notifies, and triggers an auto-snapshot" — i.e. the engine's
append operation, with no host-side effects. -/
def dispatchEvent (applyEvent : St → BaseEvent P → St) (h : HostEventSource P St)
    (e : BaseEvent P) : HostEventSource P St :=
  { h with engine := EventSource.dispatch applyEvent h.engine e }

/-- `receiveFromClient(proposedEvent, clientId)`: on validation failure
send a rejection to the proposer; on acceptance synthesize the
authoritative event — `{...proposedEvent, timestamp: Date.now(),
source: {clientId}}` — and feed it to `dispatchEvent`. (`now` stands
for `Date.now()`.) -/
def receiveFromClient (applyEvent : St → BaseEvent P → St)
    (validate : ProposedEvent P → String → Bool) (h : HostEventSource P St)
    (proposedEvent : ProposedEvent P) (clientId : String) (now : Int) :
    HostEventSource P St :=
  if !validateClientEvent validate h proposedEvent clientId then
    sendRejectionToClient h proposedEvent.id clientId
  else
    dispatchEvent applyEvent h
      { id := proposedEvent.id, timestamp := now, source := clientId,
        payload := proposedEvent.payload }

/-- `broadcast(authoritativeEvent)`: for each registered client, post a
`{type:'event'}` message carrying the per-client filtered payload; a
`null` filter result suppresses the post for that client. -/
def broadcast (filterForClient : P → String → Option P)
    (h : HostEventSource P St) (e : BaseEvent P) : HostEventSource P St :=
  { h with clients := h.clients.map (fun c =>
      match filterForClient e.payload c.1 with
      | some filtered => (c.1, c.2 ++ [EventMessage.event { e with payload := filtered }])
      | none => c) }

/-- The host's public `dispatch(payload)`: build the event with a fresh
id (`newId` stands for `generateEventId()`), `source {clientId:'host'}`
and `timestamp = Date.now()`; record the id in `pastEventIds`; append
via `dispatchEvent`; broadcast. -/
def dispatch (applyEvent : St → BaseEvent P → St)
    (filterForClient : P → String → Option P) (h : HostEventSource P St)
    (payload : P) (newId : String) (now : Int) : HostEventSource P St :=
  let e : BaseEvent P := { id := newId, source := "host", timestamp := now, payload }
  let h1 := { h with pastEventIds :=
      if h.pastEventIds.contains e.id then h.pastEventIds
      else h.pastEventIds ++ [e.id] }
  broadcast filterForClient (dispatchEvent applyEvent h1 e) e

/-- The `requestHistory` branch of the `addClient` message handler:
the events of the reply — the log filtered to `timestamp > since`, each
payload passed through `filterForClient` for the requesting client,
`null` results dropped. -/
def historyReply (filterForClient : P → String → Option P)
    (h : HostEventSource P St) (clientId : String) (since : Int) :
    List (BaseEvent P) :=
  (h.engine.events.filter (fun e => decide (since < e.timestamp))).filterMap
    (fun e => (filterForClient e.payload clientId).map
      (fun filtered => { e with payload := filtered }))

/-- The `requestHistory` branch of the `addClient` message handler:
post one `{type:'eventHistory'}` message with `historyReply` back on the
requesting client's port. -/
def handleRequestHistory (filterForClient : P → String → Option P)
    (h : HostEventSource P St) (clientId : String) (since : Int) :
    HostEventSource P St :=
  postToClient h clientId (.eventHistory (historyReply filterForClient h clientId since))

/-- `addClient(clientId, port)`: register the client with an empty
outbox (the message-handler subscription itself is modelled by the
`receiveFromClient` / `handleRequestHistory` transitions). -/
def addClient (h : HostEventSource P St) (clientId : String) :
    HostEventSource P St :=
  { h with clients := h.clients ++ [(clientId, [])] }

/-- `drop()`: `const e = this.events.at(-1); if (e) this.removeEvent(e);`. -/
def drop (applyEvent : St → BaseEvent P → St) (h : HostEventSource P St) :
    HostEventSource P St :=
  match h.engine.events.getLast? with
  | some e => { h with engine := EventSource.removeEvent applyEvent h.engine e }
  | none => h

end HostEventSource

/-! Concrete instances used to evaluate the operations at specific
inputs: a reducer that records the order of applied event ids, a
reducer that throws on a designated payload, and a permissive host. -/

/-- An order-sensitive reducer: the state is the list of applied event
ids, in application order. -/
def applyIds : List String → BaseEvent Nat → List String :=
  fun s e => s ++ [e.id]

/-- Event `(timestamp 100, id "b")`. -/
def evB : BaseEvent Nat := { id := "b", timestamp := 100, source := "c", payload := 1 }

/-- Event `(timestamp 100, id "a")`. -/
def evA : BaseEvent Nat := { id := "a", timestamp := 100, source := "c", payload := 2 }

/-- A reducer that throws (`Except.error`) exactly on payload `13`. -/
def applyOrThrow : Int → BaseEvent Nat → Except String Int :=
  fun s e => if e.payload == 13 then .error "boom" else .ok (s + (e.payload : Int))

/-- An event whose payload makes `applyOrThrow` throw. -/
def ev13 : BaseEvent Nat := { id := "x", timestamp := 5, source := "c", payload := 13 }

/-- A summing reducer over `Nat` payloads. -/
def applySum : Int → BaseEvent Nat → Int := fun s e => s + (e.payload : Int)

/-- A `validate` that accepts every proposal. -/
def validateTrue : ProposedEvent Nat → String → Bool := fun _ _ => true

/-- A `filterForClient` that redacts nothing. -/
def filterKeep : Nat → String → Option Nat := fun p _ => some p

/-- A fresh host with one registered client `"c1"`. -/
def hostA : HostEventSource Nat Int :=
  HostEventSource.addClient (HostEventSource.mk0 0) "c1"

/-- `hostA` after `receiveFromClient({id:"x", payload:5}, "c1")` at host
time 1000 — an accepted proposal. -/
def hostB : HostEventSource Nat Int :=
  HostEventSource.receiveFromClient applySum validateTrue hostA ⟨"x", 5⟩ "c1" 1000

/-- `hostB` after a second `receiveFromClient` carrying the same id
`"x"`, at host time 2000. -/
def hostC : HostEventSource Nat Int :=
  HostEventSource.receiveFromClient applySum validateTrue hostB ⟨"x", 5⟩ "c1" 2000

/-- An engine that dispatched `evB` with `snapshotInterval` 1, so one
snapshot covers the whole log: log `[(100,"b")]`, snapshot at
`eventIndex` 1. -/
def engineB : EventSource Nat (List String) :=
  EventSource.dispatch applyIds (EventSource.mk0 [] 1) evB

/-- `engineB` after `insertEvents([(100,"a")])`: the inserted event ties
on timestamp with the snapshot-covered `evB` and has the smaller id. -/
def engineBA : EventSource Nat (List String) :=
  EventSource.insertEvents applyIds engineB [evA]

/-- A fresh engine (`snapshotInterval` 1) that dispatched
`merge([evB],[evA]) = [evA, evB]` directly, in order. -/
def engineMerged : EventSource Nat (List String) :=
  (mergeSorted eventCompare [evB] [evA]).foldl
    (EventSource.dispatch applyIds) (EventSource.mk0 [] 1)

namespace EventSource

variable {P St : Type}

/-- Soundness of one snapshot `(s, k)` against a log `l`: the recorded
index is within the log and the recorded state is the fold of the
reducer over the first `k` log events from the initial state (spec I3). -/
def SnapOk (applyEvent : St → BaseEvent P → St) (init : St)
    (l : List (BaseEvent P)) (sn : St × Nat) : Prop :=
  sn.2 ≤ l.length ∧ sn.1 = (l.take sn.2).foldl applyEvent init

/-- The engine data invariant: every snapshot is sound against the
current log, the snapshot `eventIndex`es are in nondecreasing push
order, and the derived state is the fold of the reducer over the log
(spec I2). -/
def Inv (applyEvent : St → BaseEvent P → St) (es : EventSource P St) : Prop :=
  (∀ sn ∈ es.snapshots, SnapOk applyEvent es.initialState es.events sn) ∧
  es.snapshots.Pairwise (fun a b => a.2 ≤ b.2) ∧
  es.state = es.events.foldl applyEvent es.initialState

/-- One log-rewriting public engine operation (`dispatch`,
`insertEvents`, `removeEvent`, `createSnapshot`, `rebaseline`) — every
public operation except `replay`, which does not touch the log. -/
inductive Step (applyEvent : St → BaseEvent P → St) :
    EventSource P St → EventSource P St → Prop where
  | dispatch (es : EventSource P St) (e : BaseEvent P) :
      Step applyEvent es (dispatch applyEvent es e)
  | insertEvents (es : EventSource P St) (evs : List (BaseEvent P)) :
      Step applyEvent es (insertEvents applyEvent es evs)
  | removeEvent (es : EventSource P St) (e : BaseEvent P) :
      Step applyEvent es (removeEvent applyEvent es e)
  | createSnapshot (es : EventSource P St) :
      Step applyEvent es (createSnapshot es)
  | rebaseline (es : EventSource P St) (s : St) :
      Step applyEvent es (rebaseline es s)

/-- The engine obtained from a fresh engine with snapshot interval
`ivl` by dispatching the events of `L` in order (only tail dispatches,
as in the spec's auto-snapshot scenario). -/
def afterDispatches (applyEvent : St → BaseEvent P → St) (init : St)
    (ivl : Int) (L : List (BaseEvent P)) : EventSource P St :=
  L.foldl (dispatch applyEvent) (mk0 init ivl)

/-- The `safeCallback` wrapper that `subscribe` puts around every
subscriber callback: run the callback in a try/catch; a thrown
exception (modelled as `Except.error`) is caught and reported to the
diagnostic sink (`console.error('Error in subscriber callback:', e)`),
never rethrown. The result is the reported error, if any. -/
def safeCallback (callback : St → Except String Unit) (s : St) : Option String :=
  match callback s with
  | .ok _ => none
  | .error msg => some msg

/-- One `notify()` pass: iterate over a copy (`[...this.subscribers]`)
of the wrapped subscriber list, invoking each with the current state.
The pass is total — it always reaches every subscriber — and records
each subscriber's outcome (`none` = returned, `some msg` = threw and
`msg` went to the sink). -/
def notifyPass (subscribers : List (St → Except String Unit)) (s : St) :
    List (Option String) :=
  subscribers.map (fun callback => safeCallback callback s)

/-- The diagnostic-sink contents of one notify pass. -/
def sinkLog (subscribers : List (St → Except String Unit)) (s : St) : List String :=
  (notifyPass subscribers s).filterMap id

end EventSource

/-- Two subscribers: one that always throws and one that returns. -/
def demoSubscribers : List (Nat → Except String Unit) :=
  [fun _ => .error "boom", fun _ => .ok ()]

/-- `hostA` after one host-originated `dispatch(9)` with generated id
`"hid"` at host time 500 (so its log has one event and client `"c1"`'s
outbox one broadcast message). -/
def hostD : HostEventSource Nat Int :=
  HostEventSource.dispatch applySum filterKeep hostA 9 "hid" 500

/-! From here on: theorems. First the defining equations of
`mergeSorted`, then helper lemmas about the engine, then the claim
theorems. -/

theorem mergeSorted_nil_left {T : Type} (cmp : T → T → Int) (r : List T) :
    mergeSorted cmp [] r = r := rfl

theorem mergeSorted_nil_right {T : Type} (cmp : T → T → Int) (l : List T) :
    mergeSorted cmp l [] = l := by cases l <;> rfl

theorem mergeSorted_cons_cons {T : Type} (cmp : T → T → Int) (a b : T)
    (l r : List T) :
    mergeSorted cmp (a :: l) (b :: r)
      = if cmp a b ≤ 0 then a :: mergeSorted cmp l (b :: r)
        else b :: mergeSorted cmp (a :: l) r := by
  show mergeSortedGo cmp _ a l (b :: r) = _
  rw [mergeSortedGo]
  rfl

namespace EventSource

variable {P St : Type}

theorem dropSnaps_sublist (snaps : List (St × Nat)) (k : Nat) :
    List.Sublist (dropSnapshotsAfterEventIndex snaps k) snaps := by
  have h := (List.dropWhile_sublist (l := snaps.reverse)
    (fun s => decide (k < s.2))).reverse
  simpa [dropSnapshotsAfterEventIndex] using h

theorem dropSnaps_getLast_le {snaps : List (St × Nat)} {k : Nat} {x : St × Nat}
    (h : (dropSnapshotsAfterEventIndex snaps k).getLast? = some x) : x.2 ≤ k := by
  unfold dropSnapshotsAfterEventIndex at h
  rw [List.getLast?_reverse] at h
  have h2 := List.head?_dropWhile_not (fun s => decide (k < s.2)) snaps.reverse
  rw [h] at h2
  simp only [decide_eq_false_iff_not, Nat.not_lt] at h2
  exact h2

theorem pairwise_getLast_le {l : List (St × Nat)}
    (hp : l.Pairwise (fun a b => a.2 ≤ b.2)) {x : St × Nat}
    (hx : l.getLast? = some x) : ∀ y ∈ l, y.2 ≤ x.2 := by
  have hne : l ≠ [] := by
    rintro rfl; simp at hx
  have hxl : l.getLast hne = x := by
    have := List.getLast?_eq_getLast l hne
    rw [hx] at this
    exact (Option.some.injEq ..).mp this.symm
  have hconc : l.dropLast ++ [x] = l := by
    rw [← hxl]; exact List.dropLast_concat_getLast hne
  intro y hy
  rw [← hconc] at hp hy
  rcases List.mem_append.mp hy with hy | hy
  · exact (List.pairwise_append.mp hp).2.2 y hy x (List.mem_singleton.mpr rfl)
  · rcases List.mem_singleton.mp hy with rfl
    exact Nat.le_refl _

/-- A fresh engine satisfies the invariant. -/
theorem inv_mk0 (applyEvent : St → BaseEvent P → St) (init : St) (ivl : Int) :
    Inv applyEvent (mk0 (P := P) init ivl) := by
  refine ⟨?_, ?_, rfl⟩ <;> simp [mk0]

theorem inv_createSnapshot {applyEvent : St → BaseEvent P → St}
    {es : EventSource P St} (h : Inv applyEvent es) :
    Inv applyEvent (createSnapshot es) := by
  obtain ⟨hsn, hpw, hst⟩ := h
  refine ⟨?_, ?_, hst⟩
  · intro sn hmem
    rcases List.mem_append.mp hmem with hmem | hmem
    · exact hsn sn hmem
    · rcases List.mem_singleton.mp hmem with rfl
      refine ⟨Nat.le_refl _, ?_⟩
      show es.state = (es.events.take es.events.length).foldl applyEvent es.initialState
      rw [List.take_length]
      exact hst
  · refine List.pairwise_append.mpr ⟨hpw, List.pairwise_singleton .., ?_⟩
    intro a ha b hb
    rcases List.mem_singleton.mp hb with rfl
    exact (hsn a ha).1

theorem inv_dispatch {applyEvent : St → BaseEvent P → St}
    {es : EventSource P St} (h : Inv applyEvent es) (e : BaseEvent P) :
    Inv applyEvent (dispatch applyEvent es e) := by
  obtain ⟨hsn, hpw, hst⟩ := h
  have h1 : Inv applyEvent
      (notify { es with events := es.events ++ [e],
                        state := applyEvent es.state e }) := by
    refine ⟨?_, hpw, ?_⟩
    · intro sn hmem
      obtain ⟨hle, hfold⟩ := hsn sn hmem
      refine ⟨?_, ?_⟩
      · show sn.2 ≤ (es.events ++ [e]).length
        rw [List.length_append]
        exact Nat.le_trans hle (Nat.le_add_right ..)
      · show sn.1 = ((es.events ++ [e]).take sn.2).foldl applyEvent es.initialState
        rw [List.take_append_of_le_length hle]
        exact hfold
    · show applyEvent es.state e
        = (es.events ++ [e]).foldl applyEvent es.initialState
      rw [List.foldl_append, hst]
      rfl
  unfold dispatch
  dsimp only
  split
  · exact inv_createSnapshot h1
  · exact h1

/-- Shared core of `insertEvents` and `removeEvent`: rolling back to the
newest snapshot surviving `dropSnapshotsAfterEventIndex k`, replacing
the log suffix by any `suffix`, and folding `suffix` from the rollback
state, preserves the invariant. -/
theorem inv_rollback {applyEvent : St → BaseEvent P → St}
    {es : EventSource P St} (h : Inv applyEvent es) (k : Nat)
    (suffix : List (BaseEvent P)) :
    Inv applyEvent
      { es with
        snapshots := dropSnapshotsAfterEventIndex es.snapshots k,
        state := suffix.foldl applyEvent
          ((dropSnapshotsAfterEventIndex es.snapshots k).getLast?.getD
            (es.initialState, 0)).1,
        events := es.events.take
          ((dropSnapshotsAfterEventIndex es.snapshots k).getLast?.getD
            (es.initialState, 0)).2 ++ suffix,
        notifications := es.notifications + 1 } := by
  obtain ⟨hsn, hpw, hst⟩ := h
  have hsub := dropSnaps_sublist es.snapshots k
  have hpw' := List.Pairwise.sublist hsub hpw
  cases hlast : (dropSnapshotsAfterEventIndex es.snapshots k).getLast? with
  | none =>
    have hempty := List.getLast?_eq_none_iff.mp hlast
    refine ⟨?_, ?_, ?_⟩
    · intro sn hmem
      rw [hempty] at hmem
      simp at hmem
    · rw [hempty]; exact List.Pairwise.nil
    · show suffix.foldl applyEvent ((Option.getD none (es.initialState, 0)).1)
        = ((es.events.take ((Option.getD none (es.initialState, 0)).2)
            ++ suffix).foldl applyEvent es.initialState)
      simp
  | some x =>
    have hxmem : x ∈ es.snapshots :=
      List.Sublist.mem (List.mem_of_getLast?_eq_some hlast) hsub
    obtain ⟨hx2, hx1⟩ := hsn x hxmem
    have hmax := pairwise_getLast_le hpw' hlast
    have hklen : (es.events.take x.2).length = x.2 := by
      simpa using hx2
    refine ⟨?_, hpw', ?_⟩
    · intro sn hmem
      obtain ⟨hle, hfold⟩ := hsn sn (List.Sublist.mem hmem hsub)
      have hsnx := hmax sn hmem
      refine ⟨?_, ?_⟩
      · show sn.2 ≤ (es.events.take x.2 ++ suffix).length
        rw [List.length_append, hklen]
        exact Nat.le_trans hsnx (Nat.le_add_right ..)
      · show sn.1
          = ((es.events.take x.2 ++ suffix).take sn.2).foldl applyEvent es.initialState
        have hsnx' : sn.2 ≤ (es.events.take x.2).length := by
          rw [hklen]; exact hsnx
        rw [List.take_append_of_le_length hsnx', List.take_take,
          Nat.min_eq_left hsnx]
        exact hfold
    · show suffix.foldl applyEvent x.1
        = (es.events.take x.2 ++ suffix).foldl applyEvent es.initialState
      rw [List.foldl_append, ← hx1]

theorem inv_removeEvent {applyEvent : St → BaseEvent P → St}
    {es : EventSource P St} (h : Inv applyEvent es) (e : BaseEvent P) :
    Inv applyEvent (removeEvent applyEvent es e) := by
  unfold removeEvent
  cases hfind : es.events.findIdx? (fun x => x.id == e.id) with
  | none => exact h
  | some index => exact inv_rollback h index _

theorem inv_insertEvents {applyEvent : St → BaseEvent P → St}
    {es : EventSource P St} (h : Inv applyEvent es) (evs : List (BaseEvent P)) :
    Inv applyEvent (insertEvents applyEvent es evs) := by
  unfold insertEvents
  cases evs with
  | nil => exact h
  | cons e0 rest => exact inv_rollback h _ _

theorem inv_rebaseline {applyEvent : St → BaseEvent P → St}
    {es : EventSource P St} (s : St) :
    Inv applyEvent (rebaseline es s) := by
  refine ⟨?_, ?_, rfl⟩ <;> simp [rebaseline, notify]

/-- Every log-rewriting public operation preserves the invariant. -/
theorem inv_step {applyEvent : St → BaseEvent P → St}
    {es es' : EventSource P St} (h : Inv applyEvent es)
    (hstep : Step applyEvent es es') : Inv applyEvent es' := by
  cases hstep with
  | dispatch e => exact inv_dispatch h e
  | insertEvents evs => exact inv_insertEvents h evs
  | removeEvent e => exact inv_removeEvent h e
  | createSnapshot => exact inv_createSnapshot h
  | rebaseline s => exact inv_rebaseline s

theorem afterDispatches_append (applyEvent : St → BaseEvent P → St)
    (init : St) (ivl : Int) (L : List (BaseEvent P)) (e : BaseEvent P) :
    afterDispatches applyEvent init ivl (L ++ [e])
      = dispatch applyEvent (afterDispatches applyEvent init ivl L) e := by
  unfold afterDispatches
  rw [List.foldl_append]
  rfl

theorem getLast?_map_range {α : Type} (f : Nat → α) (m : Nat) :
    ((List.range m).map f).getLast?
      = match m with | 0 => none | Nat.succ m' => some (f m') := by
  cases m with
  | zero => rfl
  | succ m' =>
    rw [List.range_succ, List.map_append]
    exact List.getLast?_concat _

/-- Field-level description of one `dispatch`. -/
theorem dispatch_fields (applyEvent : St → BaseEvent P → St)
    (es : EventSource P St) (e : BaseEvent P) :
    (dispatch applyEvent es e).initialState = es.initialState ∧
    (dispatch applyEvent es e).snapshotInterval = es.snapshotInterval ∧
    (dispatch applyEvent es e).events = es.events ++ [e] ∧
    (dispatch applyEvent es e).state = applyEvent es.state e ∧
    (dispatch applyEvent es e).snapshots =
      (if es.snapshotInterval
            ≤ ((es.events.length + 1 : Nat) : Int) - ((getLatestSnapshot es).2 : Int)
       then es.snapshots ++ [(applyEvent es.state e, es.events.length + 1)]
       else es.snapshots) := by
  have hcondeq :
      (es.snapshotInterval
          ≤ (((es.events ++ [e]).length : Nat) : Int) - ((getLatestSnapshot es).2 : Int))
        ↔ (es.snapshotInterval
          ≤ ((es.events.length + 1 : Nat) : Int) - ((getLatestSnapshot es).2 : Int)) := by
    rw [List.length_append]
    rfl
  unfold dispatch
  dsimp only
  split
  next hcond =>
    refine ⟨rfl, rfl, rfl, rfl, ?_⟩
    rw [if_pos (hcondeq.mp hcond)]
    show es.snapshots ++ [(applyEvent es.state e, (es.events ++ [e]).length)] = _
    rw [List.length_append]
    rfl
  next hcond =>
    refine ⟨rfl, rfl, rfl, rfl, ?_⟩
    rw [if_neg (fun hx => hcond (hcondeq.mpr hx))]
    rfl

/-- Characterization of an engine built by tail dispatches only, with
snapshot interval `s ≥ 1`: the log is the dispatched list, the state is
its fold, and there is exactly one snapshot per completed block of `s`
dispatches, recording the fold of the first `(k+1)·s` events and the
index `(k+1)·s`. -/
theorem afterDispatches_spec (applyEvent : St → BaseEvent P → St)
    (init : St) (s : Nat) (hs : 1 ≤ s) (L : List (BaseEvent P)) :
    (afterDispatches applyEvent init (s : Int) L).initialState = init ∧
    (afterDispatches applyEvent init (s : Int) L).snapshotInterval = (s : Int) ∧
    (afterDispatches applyEvent init (s : Int) L).events = L ∧
    (afterDispatches applyEvent init (s : Int) L).state = L.foldl applyEvent init ∧
    (afterDispatches applyEvent init (s : Int) L).snapshots
      = (List.range (L.length / s)).map
          (fun k => ((L.take ((k + 1) * s)).foldl applyEvent init, (k + 1) * s)) := by
  induction L using List.reverseRecOn with
  | nil =>
    refine ⟨rfl, rfl, rfl, rfl, ?_⟩
    show ([] : List (St × Nat)) = _
    simp
  | append_singleton L e ih =>
    obtain ⟨ih0, ihivl, ihev, ihst, ihsn⟩ := ih
    rw [afterDispatches_append]
    obtain ⟨hd0, hdivl, hdev, hdst, hdsn⟩ :=
      dispatch_fields applyEvent (afterDispatches applyEvent init (s : Int) L) e
    have hfold : (L ++ [e]).foldl applyEvent init
        = applyEvent (L.foldl applyEvent init) e := by
      rw [List.foldl_append]; rfl
    have hlast : (getLatestSnapshot (afterDispatches applyEvent init (s : Int) L)).2
        = (L.length / s) * s := by
      show ((afterDispatches applyEvent init (s : Int) L).snapshots.getLast?.getD
        ((afterDispatches applyEvent init (s : Int) L).initialState, 0)).2 = _
      rw [ihsn, getLast?_map_range]
      cases hq : L.length / s with
      | zero => simp
      | succ q' => simp [Nat.succ_mul, Nat.succ_eq_add_one]
    have hmod : L.length / s * s + L.length % s = L.length := by
      rw [Nat.mul_comm]; exact Nat.div_add_mod L.length s
    have hr : L.length % s < s := Nat.mod_lt _ hs
    refine ⟨by rw [hd0, ih0], by rw [hdivl, ihivl], by rw [hdev, ihev],
      by rw [hdst, ihst, hfold], ?_⟩
    rw [hdsn, hlast, ihivl, ihev, ihsn, ihst, List.length_append, List.length_singleton]
    have htakes : ∀ k, k < L.length / s →
        (L ++ [e]).take ((k + 1) * s) = L.take ((k + 1) * s) := by
      intro k hk
      refine List.take_append_of_le_length ?_
      calc (k + 1) * s ≤ L.length / s * s := Nat.mul_le_mul_right s hk
        _ ≤ L.length := by omega
    by_cases hC : L.length % s + 1 = s
    · have hcond : (s : Int) ≤ ((L.length + 1 : Nat) : Int)
          - ((L.length / s * s : Nat) : Int) := by
        have h1 := hmod
        revert h1
        generalize L.length / s * s = a
        intro h1
        omega
      rw [if_pos hcond]
      have hlen1 : L.length + 1 = (L.length / s + 1) * s := by
        rw [Nat.succ_mul]
        omega
      have hdiv : (L.length + 1) / s = L.length / s + 1 := by
        rw [hlen1]
        exact Nat.mul_div_cancel _ hs
      rw [hdiv, List.range_succ, List.map_append]
      refine congrArg₂ (· ++ ·) ?_ ?_
      · refine List.map_congr_left ?_
        intro k hk
        rw [htakes k (List.mem_range.mp hk)]
      · simp only [List.map_cons, List.map_nil]
        have hle : (L ++ [e]).length ≤ (L.length / s + 1) * s := by
          simp [← hlen1]
        rw [List.take_of_length_le hle, hfold, ← hlen1]
    · have hcond : ¬ ((s : Int) ≤ ((L.length + 1 : Nat) : Int)
          - ((L.length / s * s : Nat) : Int)) := by
        have h1 := hmod
        revert h1
        generalize L.length / s * s = a
        intro h1
        omega
      rw [if_neg hcond]
      have hdiv : (L.length + 1) / s = L.length / s := by
        refine Nat.div_eq_of_lt_le (by omega) ?_
        rw [Nat.succ_mul]
        omega
      rw [hdiv]
      refine List.map_congr_left ?_
      intro k hk
      rw [htakes k (List.mem_range.mp hk)]

end EventSource

/-- C1: For every engine and every current log/state/snapshot
configuration, if the reducer throws during dispatch(event),
replay(events), insertEvents(events), or removeEvent(event), the
exception propagates to the caller and the engine's log, derived state,
and snapshot list are exactly what they were before the call (atomic
failure: no partial append, no partial rewind). — REFUTED at a concrete
input: `dispatch` pushes the event onto the log before calling the
reducer, so when the reducer throws, the exception propagates but the
log already holds the new event (the state and snapshots are unchanged,
the log is not). -/
theorem c1_dispatch_reducer_throw_leaves_appended_event :
    (EventSource.dispatchThrowing applyOrThrow (EventSource.mk0 7 100) ev13).2
        = some "boom" ∧
    (EventSource.dispatchThrowing applyOrThrow (EventSource.mk0 7 100) ev13).1.events
        = [ev13] ∧
    (EventSource.dispatchThrowing applyOrThrow (EventSource.mk0 7 100) ev13).1.events
        ≠ (EventSource.mk0 (P := Nat) 7 100).events ∧
    (EventSource.dispatchThrowing applyOrThrow (EventSource.mk0 7 100) ev13).1.state
        = (EventSource.mk0 (P := Nat) 7 100).state := by
  decide

/-- C2: After any sequence of public engine operations the log is
strictly sorted by (timestamp, id) and all ids are distinct; in
particular when insertEvents inserts an event whose timestamp equals
that of an existing log event while a snapshot covers that existing
event. — REFUTED at exactly that particular input: with log
`[(100,"b")]` covered by a snapshot at eventIndex 1, inserting the
batch `[(100,"a")]` (sorted, id fresh to the log, sortable into it)
yields the log `[(100,"b"), (100,"a")]`, which is not strictly sorted
by (timestamp, id). -/
theorem c2_insert_under_snapshot_breaks_ordering :
    List.Pairwise eventLt (mergeSorted eventCompare engineB.events [evA]) ∧
    ("a" ∈ engineB.events.map (fun e => e.id)) = False ∧
    engineB.snapshots.map (fun sn => sn.2) = [1] ∧
    engineBA.events.map (fun e => (e.timestamp, e.id)) = [(100, "b"), (100, "a")] ∧
    ¬ List.Pairwise eventLt engineBA.events := by
  decide

/-- C4: Accepting a client proposal adds its id to the past-id set, so
a second proposal carrying the same id is rejected as a duplicate, and
every id in the host log is in the past-id set. — REFUTED at a concrete
input: `receiveFromClient` never inserts the accepted id into
`pastEventIds` (only the host-originated `dispatch(payload)` path does),
so after accepting `{id:"x"}` the past-id set is still empty, a second
proposal with id "x" passes `validateClientEvent` and is accepted again,
and the host log ends up with the id "x" twice while the past-id set
contains no id at all. -/
theorem c4_accepted_id_never_enters_past_id_set :
    hostB.engine.events.map (fun e => e.id) = ["x"] ∧
    hostB.pastEventIds = [] ∧
    HostEventSource.validateClientEvent validateTrue hostB ⟨"x", 5⟩ "c1" = true ∧
    hostC.engine.events.map (fun e => e.id) = ["x", "x"] ∧
    hostC.clients = [("c1", [])] := by
  decide

/-- C5: When the host accepts a client proposal it synthesizes the
authoritative event (host timestamp, source clientId, same id and
payload), appends it to the host log, and posts a `{type:"event"}`
message with the filtered event to every registered client whose
filter result is non-null. — REFUTED at a concrete input: the
synthesis and append happen, but `receiveFromClient` only calls
`dispatchEvent` and never `broadcast` (which is reachable only from the
host-originated `dispatch(payload)`), so the registered client "c1",
whose filter keeps the payload, receives no message at all. -/
theorem c5_acceptance_posts_no_event_message :
    hostB.engine.events
        = [{ id := "x", timestamp := 1000, source := "c1", payload := 5 }] ∧
    filterKeep 5 "c1" = some 5 ∧
    hostA.clients.map (fun c => c.1) = ["c1"] ∧
    hostB.clients = [("c1", [])] := by
  decide

/-- C6: For every pair (pre, add) with add sortable into pre,
dispatching merge(pre, add) into a fresh engine yields the same final
state as dispatching pre and then insertEvents(add). — REFUTED at a
concrete input: with pre = [(100,"b")], add = [(100,"a")] (sortable:
their merge [(100,"a")(100,"b")] is strictly sorted) and
snapshotInterval 1, the snapshot taken after dispatching pre covers
the equal-timestamp event, insertEvents appends add after it, and the
two final states differ for an order-sensitive reducer. -/
theorem c6_insertion_equivalence_fails_under_snapshot :
    List.Pairwise eventLt (mergeSorted eventCompare [evB] [evA]) ∧
    engineMerged.state ≠ engineBA.state := by
  decide

/-- C3 (amended): after every public engine operation that rewrites the
log — dispatch, insertEvents, removeEvent, createSnapshot, rebaseline —
starting from a fresh engine, the derived state returned by getState
equals the fold of the reducer over the current log from the (current)
initial state, with no precondition on the operations' arguments.
(`replay` is excluded: the counterexample shows it advances the state
while leaving the log unchanged.) -/
theorem c3_state_is_fold_of_log {P St : Type}
    (applyEvent : St → BaseEvent P → St) (init : St) (ivl : Int)
    (es : EventSource P St)
    (h : Relation.ReflTransGen (EventSource.Step applyEvent)
      (EventSource.mk0 init ivl) es) :
    es.getState = es.events.foldl applyEvent es.initialState := by
  have hinv : EventSource.Inv applyEvent es := by
    induction h with
    | refl => exact EventSource.inv_mk0 applyEvent init ivl
    | tail hsteps hstep ih => exact EventSource.inv_step ih hstep
  exact hinv.2.2

/-- Witness for C3 at a concrete input: one dispatch from a fresh engine. -/
theorem c3_state_is_fold_of_log_witness :
    (EventSource.dispatch applyIds (EventSource.mk0 [] 100) evA).getState
      = (EventSource.dispatch applyIds (EventSource.mk0 [] 100) evA).events.foldl
          applyIds
          (EventSource.dispatch applyIds (EventSource.mk0 [] 100) evA).initialState :=
  c3_state_is_fold_of_log applyIds [] 100 _
    (Relation.ReflTransGen.single (EventSource.Step.dispatch _ evA))

/-- C3 counterexample: after the public operation `replay(events)` the
derived state is not the fold of the reducer over the current log:
replaying one event into a fresh engine advances the state but leaves
the log empty. -/
theorem c3_replay_breaks_state_log_fold :
    (EventSource.replay applyIds (EventSource.mk0 [] 100) [evA]).state
      ≠ (EventSource.replay applyIds (EventSource.mk0 [] 100) [evA]).events.foldl
          applyIds
          (EventSource.replay applyIds (EventSource.mk0 [] 100) [evA]).initialState := by
  decide

theorem find?_map_update {A : Type} (l : List (String × List A)) (cid : String)
    (msg : A) (out : List A)
    (hf : l.find? (fun c => c.1 == cid) = some (cid, out)) :
    (l.map (fun c => if c.1 == cid then (c.1, c.2 ++ [msg]) else c)).find?
      (fun c => c.1 == cid) = some (cid, out ++ [msg]) := by
  induction l with
  | nil => simp at hf
  | cons c t ih =>
    by_cases hc : c.1 == cid
    · have h2 : List.find? (fun c => c.1 == cid) (c :: t) = some c := by
        simp [List.find?, hc]
      rw [h2] at hf
      obtain rfl : c = (cid, out) := by injection hf
      simp [List.find?, List.map_cons, hc]
    · have h2 : List.find? (fun c => c.1 == cid) (c :: t)
          = List.find? (fun c => c.1 == cid) t := by
        simp [List.find?, hc]
      rw [h2] at hf
      rw [List.map_cons, if_neg hc]
      have h3 : List.find? (fun c => c.1 == cid)
            (c :: (t.map (fun c => if c.1 == cid then (c.1, c.2 ++ [msg]) else c)))
          = List.find? (fun c => c.1 == cid)
            (t.map (fun c => if c.1 == cid then (c.1, c.2 ++ [msg]) else c)) := by
        simp [List.find?, hc]
      rw [h3]
      exact ih hf

theorem find?_map_update_other {A : Type} (l : List (String × List A))
    (cid : String) (msg : A) (c : String × List A) (hmem : c ∈ l)
    (hne : c.1 ≠ cid) :
    c ∈ l.map (fun c => if c.1 == cid then (c.1, c.2 ++ [msg]) else c) := by
  refine List.mem_map.mpr ⟨c, hmem, ?_⟩
  rw [if_neg (by simpa using hne)]

theorem map_filterMap_sublist {A B C : Type} (f : A → Option B) (g : A → C)
    (gb : B → C) (hpres : ∀ a b, f a = some b → gb b = g a) (l : List A) :
    List.Sublist ((l.filterMap f).map gb) (l.map g) := by
  induction l with
  | nil => simp
  | cons a t ih =>
    cases hf : f a with
    | none =>
      simp only [List.filterMap_cons, hf, List.map_cons]
      exact List.Sublist.cons _ ih
    | some b =>
      simp only [List.filterMap_cons, hf, List.map_cons]
      rw [hpres a b hf]
      exact List.Sublist.cons₂ _ ih

/-- Membership description of the host's history reply. -/
theorem historyReply_mem_iff {P St : Type} (filterForClient : P → String → Option P)
    (h : HostEventSource P St) (clientId : String) (since : Int) (x : BaseEvent P) :
    x ∈ HostEventSource.historyReply filterForClient h clientId since ↔
      ∃ e ∈ h.engine.events, since < e.timestamp ∧
        filterForClient e.payload clientId = some x.payload ∧
        x = { e with payload := x.payload } := by
  unfold HostEventSource.historyReply
  rw [List.mem_filterMap]
  constructor
  · rintro ⟨e, hmem, hfe⟩
    rw [List.mem_filter] at hmem
    obtain ⟨hmem, hts⟩ := hmem
    rw [Option.map_eq_some'] at hfe
    obtain ⟨p, hp, hx⟩ := hfe
    subst hx
    exact ⟨e, hmem, by simpa using hts, hp, rfl⟩
  · rintro ⟨e, hmem, hts, hp, hx⟩
    refine ⟨e, List.mem_filter.mpr ⟨hmem, by simpa using hts⟩, ?_⟩
    rw [Option.map_eq_some']
    exact ⟨x.payload, hp, hx.symm⟩

/-- C8: For every requestHistory message with bound `since` from a
registered client, the host posts to exactly that client exactly one
eventHistory message whose events are exactly the host-log events with
timestamp strictly greater than `since`, each with its payload replaced
by `filterForClient(payload, clientId)`, events with a null filter
result omitted, in the log's chronological order (the reply's ids form
a subsequence of the log's ids); other clients' outboxes are untouched. -/
theorem c8_request_history_reply {P St : Type}
    (filterForClient : P → String → Option P) (h : HostEventSource P St)
    (clientId : String) (since : Int)
    (outbox : List (EventMessage (BaseEvent P)))
    (hreg : h.clients.find? (fun c => c.1 == clientId) = some (clientId, outbox)) :
    ((HostEventSource.handleRequestHistory filterForClient h clientId since).clients.find?
        (fun c => c.1 == clientId))
      = some (clientId, outbox ++
          [EventMessage.eventHistory
            (HostEventSource.historyReply filterForClient h clientId since)]) ∧
    (∀ x, x ∈ HostEventSource.historyReply filterForClient h clientId since ↔
      ∃ e ∈ h.engine.events, since < e.timestamp ∧
        filterForClient e.payload clientId = some x.payload ∧
        x = { e with payload := x.payload }) ∧
    List.Sublist
      ((HostEventSource.historyReply filterForClient h clientId since).map
        (fun e => e.id))
      (h.engine.events.map (fun e => e.id)) ∧
    (∀ c ∈ h.clients, c.1 ≠ clientId →
      c ∈ (HostEventSource.handleRequestHistory filterForClient h clientId since).clients) := by
  refine ⟨?_, historyReply_mem_iff filterForClient h clientId since, ?_, ?_⟩
  · exact find?_map_update h.clients clientId _ outbox hreg
  · unfold HostEventSource.historyReply
    refine List.Sublist.trans
      (map_filterMap_sublist
        (fun e => (filterForClient e.payload clientId).map
          (fun filtered => { e with payload := filtered }))
        (fun e : BaseEvent P => e.id) (fun e : BaseEvent P => e.id) ?_ _) ?_
    · intro a b hab
      rw [Option.map_eq_some'] at hab
      obtain ⟨p, hp, hx⟩ := hab
      rw [← hx]
    · exact List.Sublist.map _ (List.filter_sublist _)
  · intro c hmem hne
    exact find?_map_update_other h.clients clientId _ c hmem hne

/-- Witness for C8 at a concrete input: host `hostD` (one log event at
timestamp 500, one registered client "c1" that already received the
broadcast) answering `requestHistory(since = 100)`. -/
theorem c8_request_history_reply_witness :
    ((HostEventSource.handleRequestHistory filterKeep hostD "c1" 100).clients.find?
        (fun c => c.1 == "c1"))
      = some ("c1",
          [EventMessage.event
            { id := "hid", timestamp := 500, source := "host", payload := 9 }] ++
          [EventMessage.eventHistory (HostEventSource.historyReply filterKeep hostD "c1" 100)]) ∧
    (({ id := "hid", timestamp := 500, source := "host", payload := 9 } : BaseEvent Nat)
        ∈ HostEventSource.historyReply filterKeep hostD "c1" 100) :=
  ⟨(c8_request_history_reply filterKeep hostD "c1" 100
      [EventMessage.event { id := "hid", timestamp := 500, source := "host", payload := 9 }]
      (by decide)).1,
   ((c8_request_history_reply filterKeep hostD "c1" 100
      [EventMessage.event { id := "hid", timestamp := 500, source := "host", payload := 9 }]
      (by decide)).2.1 _).mpr
     ⟨{ id := "hid", timestamp := 500, source := "host", payload := 9 },
       by decide, by decide, by decide, by decide⟩⟩

theorem findIdx_last_of_nodup {P : Type} (l' : List (BaseEvent P)) (e : BaseEvent P)
    (hnodup : ((l' ++ [e]).map (fun x => x.id)).Nodup) :
    (l' ++ [e]).findIdx? (fun x => x.id == e.id) = some l'.length := by
  induction l' with
  | nil => simp
  | cons c t ih =>
    have hcid : (c.id == e.id) = false := by
      rw [List.cons_append, List.map_cons] at hnodup
      have h1 := (List.nodup_cons.mp hnodup).1
      refine beq_eq_false_iff_ne.mpr ?_
      intro hcontra
      exact h1 (hcontra ▸ List.mem_map.mpr ⟨e, by simp, rfl⟩)
    have htail : ((t ++ [e]).map (fun x => x.id)).Nodup := by
      rw [List.cons_append, List.map_cons] at hnodup
      exact (List.nodup_cons.mp hnodup).2
    rw [List.cons_append, List.findIdx?_cons]
    rw [if_neg (by simp [hcid])]
    rw [List.findIdx?_succ, ih htail]
    simp

namespace EventSource

variable {P St : Type}

/-- `removeEvent` applied to the newest (last) log event, on an engine
with sound snapshots and duplicate-free ids: the log loses exactly its
last entry, the state is rebuilt as the fold over the remaining events,
and subscribers are notified once. -/
theorem removeEvent_last {applyEvent : St → BaseEvent P → St}
    {es : EventSource P St} (hinv : Inv applyEvent es)
    (hnodup : (es.events.map (fun x => x.id)).Nodup)
    {e : BaseEvent P} (hlast : es.events.getLast? = some e) :
    (removeEvent applyEvent es e).events = es.events.dropLast ∧
    (removeEvent applyEvent es e).state
      = es.events.dropLast.foldl applyEvent es.initialState ∧
    (removeEvent applyEvent es e).notifications = es.notifications + 1 := by
  obtain ⟨hsn, hpw, hst⟩ := hinv
  have hconc : es.events.dropLast ++ [e] = es.events :=
    List.dropLast_append_getLast? e (by rw [hlast]; exact rfl)
  have hfind : es.events.findIdx? (fun x => x.id == e.id)
      = some es.events.dropLast.length := by
    have h2 := findIdx_last_of_nodup es.events.dropLast e
      (by rw [hconc]; exact hnodup)
    rw [hconc] at h2
    exact h2
  have hre : removeEvent applyEvent es e
      = replay applyEvent
        { es with
          snapshots := dropSnapshotsAfterEventIndex es.snapshots
            es.events.dropLast.length,
          state := ((dropSnapshotsAfterEventIndex es.snapshots
            es.events.dropLast.length).getLast?.getD (es.initialState, 0)).1,
          events := es.events.take
              ((dropSnapshotsAfterEventIndex es.snapshots
                es.events.dropLast.length).getLast?.getD (es.initialState, 0)).2
            ++ (es.events.drop
              ((dropSnapshotsAfterEventIndex es.snapshots
                es.events.dropLast.length).getLast?.getD (es.initialState, 0)).2).filter
              (fun x => x.id != e.id) }
        ((es.events.drop
            ((dropSnapshotsAfterEventIndex es.snapshots
              es.events.dropLast.length).getLast?.getD (es.initialState, 0)).2).filter
          (fun x => x.id != e.id)) := by
    unfold removeEvent
    rw [hfind]
  have hk2 : ((dropSnapshotsAfterEventIndex es.snapshots
      es.events.dropLast.length).getLast?.getD (es.initialState, 0)).2
      ≤ es.events.dropLast.length := by
    cases hq : (dropSnapshotsAfterEventIndex es.snapshots
        es.events.dropLast.length).getLast? with
    | none => simp [hq]
    | some x =>
      exact dropSnaps_getLast_le hq
  have hsound : ((dropSnapshotsAfterEventIndex es.snapshots
        es.events.dropLast.length).getLast?.getD (es.initialState, 0)).1
      = (es.events.take ((dropSnapshotsAfterEventIndex es.snapshots
          es.events.dropLast.length).getLast?.getD (es.initialState, 0)).2).foldl
        applyEvent es.initialState := by
    cases hq : (dropSnapshotsAfterEventIndex es.snapshots
        es.events.dropLast.length).getLast? with
    | none => simp [hq]
    | some x =>
      have hxmem : x ∈ es.snapshots :=
        List.Sublist.mem (List.mem_of_getLast?_eq_some hq) (dropSnaps_sublist ..)
      exact (hsn x hxmem).2
  have hdisj : ∀ x ∈ es.events.dropLast, x.id ≠ e.id := by
    intro x hx hxe
    rw [← hconc, List.map_append] at hnodup
    have hdj := (List.nodup_append.mp hnodup).2.2
    exact hdj (List.mem_map.mpr ⟨x, hx, rfl⟩) (by simp [hxe])
  have hdropfilter : ∀ k, k ≤ es.events.dropLast.length →
      (es.events.drop k).filter (fun x => x.id != e.id)
        = es.events.dropLast.drop k := by
    intro k hk
    have h1 : (es.events.dropLast.drop k).filter (fun x => x.id != e.id)
        = es.events.dropLast.drop k := by
      refine List.filter_eq_self.mpr ?_
      intro a ha
      exact bne_iff_ne.mpr (hdisj a (List.drop_subset _ _ ha))
    have h2 : ([e]).filter (fun x => x.id != e.id) = ([] : List (BaseEvent P)) := by
      simp
    conv_lhs => rw [← hconc, List.drop_append_of_le_length hk]
    rw [List.filter_append, h1, h2, List.append_nil]
  have htake : ∀ k, k ≤ es.events.dropLast.length →
      es.events.take k = es.events.dropLast.take k := by
    intro k hk
    conv_lhs => rw [← hconc, List.take_append_of_le_length hk]
  rw [hre]
  refine ⟨?_, ?_, rfl⟩
  · show es.events.take _ ++ (es.events.drop _).filter (fun x => x.id != e.id)
      = es.events.dropLast
    rw [hdropfilter _ hk2, htake _ hk2, List.take_append_drop]
  · show ((es.events.drop _).filter (fun x => x.id != e.id)).foldl applyEvent _
      = es.events.dropLast.foldl applyEvent es.initialState
    rw [hdropfilter _ hk2, hsound, htake _ hk2]
    conv_rhs =>
      rw [← List.take_append_drop
        ((dropSnapshotsAfterEventIndex es.snapshots
          es.events.dropLast.length).getLast?.getD (es.initialState, 0)).2
        es.events.dropLast]
    rw [List.foldl_append]

end EventSource

/-- C10: The host's public `drop()`: when the host log is non-empty
(with sound snapshots and duplicate-free ids) it removes exactly the
newest (last) event from the log and rebuilds the state as the replay
of the remaining events, notifying once, while the past-id set and the
client registry are untouched (the removed id stays in the past-id
set); when the log is empty, `drop()` is a no-op — no state change and
no subscriber notification. -/
theorem c10_drop_newest {P St : Type} (applyEvent : St → BaseEvent P → St)
    (h : HostEventSource P St)
    (hinv : EventSource.Inv applyEvent h.engine)
    (hnodup : (h.engine.events.map (fun x => x.id)).Nodup) :
    (h.engine.events ≠ [] →
      (HostEventSource.drop applyEvent h).engine.events = h.engine.events.dropLast ∧
      (HostEventSource.drop applyEvent h).engine.state
        = h.engine.events.dropLast.foldl applyEvent h.engine.initialState ∧
      (HostEventSource.drop applyEvent h).pastEventIds = h.pastEventIds ∧
      (HostEventSource.drop applyEvent h).clients = h.clients ∧
      (HostEventSource.drop applyEvent h).engine.notifications
        = h.engine.notifications + 1) ∧
    (h.engine.events = [] → HostEventSource.drop applyEvent h = h) := by
  constructor
  · intro hne
    have hlast : h.engine.events.getLast? = some (h.engine.events.getLast hne) :=
      List.getLast?_eq_getLast h.engine.events hne
    have hdrop : HostEventSource.drop applyEvent h
        = { h with engine := EventSource.removeEvent applyEvent h.engine (h.engine.events.getLast hne) } := by
      unfold HostEventSource.drop
      rw [hlast]
    obtain ⟨h1, h2, h3⟩ := EventSource.removeEvent_last hinv hnodup hlast
    rw [hdrop]
    exact ⟨h1, h2, rfl, rfl, h3⟩
  · intro hemp
    unfold HostEventSource.drop
    rw [hemp]
    rfl

/-- Witness for C10 at a concrete input: `hostD` (log of one event,
empty snapshot list). -/
theorem c10_drop_newest_witness :
    (hostD.engine.events ≠ [] →
      (HostEventSource.drop applySum hostD).engine.events
          = hostD.engine.events.dropLast ∧
      (HostEventSource.drop applySum hostD).engine.state
        = hostD.engine.events.dropLast.foldl applySum hostD.engine.initialState ∧
      (HostEventSource.drop applySum hostD).pastEventIds = hostD.pastEventIds ∧
      (HostEventSource.drop applySum hostD).clients = hostD.clients ∧
      (HostEventSource.drop applySum hostD).engine.notifications
        = hostD.engine.notifications + 1) ∧
    (hostD.engine.events = [] → HostEventSource.drop applySum hostD = hostD) :=
  c10_drop_newest applySum hostD
    (by unfold EventSource.Inv EventSource.SnapOk; decide) (by decide)

/-- C7: Starting from a fresh engine with snapshot interval `s` and
performing only tail dispatches, a snapshot is created after a dispatch
exactly when the log length minus the newest snapshot's eventIndex
reaches `s`: after dispatching the list `L`, the snapshot list holds
exactly one snapshot per completed block of `s` dispatches, the `k`-th
recording state = fold of the first `(k+1)·s` events and
eventIndex = `(k+1)·s` — in particular, after 100 dispatches at the
default interval 100 there is exactly one snapshot, with eventIndex 100
and state the replay of those 100 events. -/
theorem c7_auto_snapshot_policy {P St : Type}
    (applyEvent : St → BaseEvent P → St) (init : St) (s : Nat) (hs : 1 ≤ s)
    (L : List (BaseEvent P)) :
    (EventSource.afterDispatches applyEvent init (s : Int) L).snapshots
      = (List.range (L.length / s)).map
          (fun k => ((L.take ((k + 1) * s)).foldl applyEvent init, (k + 1) * s)) :=
  (EventSource.afterDispatches_spec applyEvent init s hs L).2.2.2.2

/-- Witness for C7 at the claim's particular input: 100 dispatches at
the default interval 100 leave exactly the one snapshot
`(fold of all 100 events, 100)`. -/
theorem c7_auto_snapshot_policy_witness :
    1 ≤ 100 ∧
    (EventSource.afterDispatches applyIds [] ((100 : Nat) : Int)
        (List.replicate 100 evA)).snapshots
      = (List.range ((List.replicate 100 evA).length / 100)).map
          (fun k => (((List.replicate 100 evA).take ((k + 1) * 100)).foldl applyIds [],
            (k + 1) * 100)) :=
  ⟨by decide, c7_auto_snapshot_policy applyIds [] 100 (by decide) (List.replicate 100 evA)⟩

/-- C9: If one subscribed listener throws during a notification pass,
every other subscribed listener is still invoked with the same state
value, the exception does not propagate (the pass is total and yields
one outcome per listener, each listener's outcome depending only on
that listener and the state), and the thrown error is reported to the
diagnostic sink. -/
theorem c9_listener_isolation {St : Type}
    (subscribers : List (St → Except String Unit)) (s : St) :
    (EventSource.notifyPass subscribers s).length = subscribers.length ∧
    (∀ i (h : i < subscribers.length),
      (EventSource.notifyPass subscribers s)[i]?
        = some (EventSource.safeCallback (subscribers.get ⟨i, h⟩) s)) ∧
    (∀ i (h : i < subscribers.length) (msg : String),
      subscribers.get ⟨i, h⟩ s = .error msg →
        msg ∈ EventSource.sinkLog subscribers s) := by
  refine ⟨List.length_map .., ?_, ?_⟩
  · intro i h
    rw [EventSource.notifyPass, List.getElem?_map, List.getElem?_eq_getElem h]
    rfl
  · intro i h msg herr
    have hmem : EventSource.safeCallback (subscribers.get ⟨i, h⟩) s = some msg := by
      rw [EventSource.safeCallback, herr]
    refine List.mem_filterMap.mpr ⟨some msg, ?_, rfl⟩
    refine List.mem_map.mpr ⟨subscribers.get ⟨i, h⟩, List.get_mem .., hmem⟩

/-- Witness for C9 at a concrete input: with a throwing first listener
and a normal second listener, both outcomes are recorded (the second
listener runs despite the first one's exception) and the error "boom"
reaches the sink. -/
theorem c9_listener_isolation_witness :
    (EventSource.notifyPass demoSubscribers 0)[1]?
        = some (EventSource.safeCallback (demoSubscribers.get ⟨1, by decide⟩) 0) ∧
    "boom" ∈ EventSource.sinkLog demoSubscribers 0 :=
  ⟨(c9_listener_isolation demoSubscribers 0).2.1 1 (by decide),
   (c9_listener_isolation demoSubscribers 0).2.2 0 (by decide) "boom" rfl⟩

end DZero
